import Mathlib

/-!
Shallow embedding of the TRC-20 payment reconciliation engine
(`src/main.rs` of guoying2026/rustTron).

Modelling conventions:
* Exact decimal amounts (Rust `BigDecimal`) are rationals `ℚ`; every
  arithmetic operation the program performs on them (addition, subtraction,
  comparison, division by a power of ten) is exact, so `ℚ` is a faithful
  carrier.  `BigDecimal::with_scale(3)` divides the internal integer by a
  power of ten with `BigInt` division, which truncates toward zero; it is
  modelled by `truncTowardZero`.
* The `pay_records` table is a list of rows kept in ascending-`id` order
  (every query the program issues reads `ORDER BY id ASC`, and the one
  `ORDER BY id DESC LIMIT 1` query is modelled by `getLast?`).
* A fetch of one feed page either succeeds with a parsed body, fails with a
  non-success HTTP status, fails at transport level (`reqwest::get`), or
  fails while decoding the JSON body; `PageResult` enumerates the four.
* The raw `value` field of a feed record is a string passed to
  `BigDecimal::from_str`; the embedding keeps only the parse outcome
  (`ParseOutcome.ok q` or `ParseOutcome.err`).
* `u64` arithmetic is `Nat` with an explicit `% 2 ^ 64`.
-/

set_option maxRecDepth 2000

namespace RustTron

/-- `token_info` of a raw feed record: asset symbol and declared decimals. -/
structure TokenInfo where
  symbol : String
  decimals : Nat
  deriving DecidableEq

/-- Outcome of `BigDecimal::from_str` on the raw `value` string. -/
inductive ParseOutcome where
  | ok (q : ℚ)
  | err
  deriving DecidableEq

/-- One raw record of a feed page (`TransactionDetail` in the source);
optional fields are `Option`s exactly as the `serde` struct declares them. -/
structure TransactionDetail where
  tx_id : String
  token_info : Option TokenInfo
  from_addr : Option String
  to_addr : Option String
  value : Option ParseOutcome
  deriving DecidableEq

/-- A normalized transfer the filter accepted. -/
structure ObservedTransfer where
  tx_id : String
  from_addr : String
  to_addr : String
  amount : ℚ
  deriving DecidableEq

/-- One row of the `pay_records` table. -/
structure PayRecord where
  id : Int
  user_id : Int
  pay_token : ℚ
  is_pay : Bool
  transaction_id : String
  pay_before_gold_coins : ℚ
  pay_after_gold_coins : ℚ
  deriving DecidableEq

/-- One row of the `user` table. -/
structure UserRow where
  id : Int
  gold_coins : ℚ
  deriving DecidableEq

/-- The relational store.  `pay_records` is kept in ascending-`id` order. -/
structure Store where
  pay_records : List PayRecord
  users : List UserRow
  deriving DecidableEq

/-- `10u64.pow(decimals)`: the divisor computed in wrapping 64-bit
arithmetic (`Nat` with an explicit reduction modulo `2 ^ 64`). -/
def divisorU64 (decimals : Nat) : Nat := 10 ^ decimals % 2 ^ 64

/-- `TransferFilter::normalize` — the per-record filtering prefix of the
page loop (`main.rs` lines 165-203): skip when `from` is absent, skip when
`to` is absent or differs from the watched address, skip when `value` is
absent, skip when `token_info` is absent or its symbol is not `"USDT"`;
an unparsable `value` string falls back to `BigDecimal::from(0)`
(`unwrap_or_else`), and the readable amount is `value / 10^decimals`. -/
def normalize (address : String) (t : TransactionDetail) : Option ObservedTransfer :=
  match t.from_addr with
  | none => none
  | some f =>
    match t.to_addr with
    | none => none
    | some dest =>
      if dest ≠ address then none
      else
        match t.value with
        | none => none
        | some v =>
          match t.token_info with
          | none => none
          | some info =>
            if info.symbol = "USDT" then
              let value_decimal : ℚ := match v with | .ok q => q | .err => 0
              let divisor : ℚ := (divisorU64 info.decimals : ℚ)
              some ⟨t.tx_id, f, dest, value_decimal / divisor⟩
            else none

/-- Truncation toward zero, the behaviour of `BigInt` division used by
`BigDecimal::with_scale` when it lowers the scale (`Int.tdiv` is division
truncating toward zero, and `q.den` is positive). -/
def truncTowardZero (q : ℚ) : ℤ := q.num.tdiv q.den

/-- `BigDecimal::with_scale(3)`: the value truncated (toward zero, not
rounded) to 3 decimal places. -/
def with_scale3 (q : ℚ) : ℚ := (truncTowardZero (q * 1000) : ℚ) / 1000

/-- The closure passed to `position` in `main.rs` lines 221-232: the range
test `amount - 2 <= readable_amount < amount` conjoined with equality of
the two amounts truncated to 3 decimal places. -/
def matchPred (readable_amount amount : ℚ) : Bool :=
  (decide (amount - 2 ≤ readable_amount) && decide (readable_amount < amount))
    && decide (with_scale3 amount = with_scale3 readable_amount)

/-- `pending_amounts.iter().position(..)`: index of the first pending
obligation satisfying `matchPred`. -/
def findMatchPos (readable_amount : ℚ) (pending : List (Int × ℚ)) : Option Nat :=
  pending.findIdx? (fun p => matchPred readable_amount p.2)

/-- `UPDATE pay_records SET transaction_id = ?, pay_token = ?, is_pay = 1,
pay_before_gold_coins = ?, pay_after_gold_coins = ? WHERE id = ?`
(`main.rs` lines 254-266) as a per-row update. -/
def settleRow (oid : Int) (tx_id : String) (amt pre post : ℚ)
    (r : PayRecord) : PayRecord :=
  if r.id == oid then
    { r with transaction_id := tx_id, pay_token := amt, is_pay := true,
             pay_before_gold_coins := pre, pay_after_gold_coins := post }
  else r

/-- `UPDATE user SET gold_coins = ? WHERE id = ?` as a per-row update. -/
def settleUser (uid : Int) (post : ℚ) (u : UserRow) : UserRow :=
  if u.id == uid then { u with gold_coins := post } else u

/-- `SettlementApplier` — the transaction of `main.rs` lines 236-277:
join `user` through `pay_records` by the obligation id, snapshot the
balance, then commit the `pay_records` update and the `user` balance
update as one atomic step.  `none` models the transaction failing (the
joined row being unavailable), in which case nothing is written. -/
def settle (st : Store) (oid : Int) (tx_id : String) (readable_amount : ℚ) :
    Option Store :=
  match st.pay_records.find? (fun r => r.id == oid) with
  | none => none
  | some r0 =>
    match st.users.find? (fun u => u.id == r0.user_id) with
    | none => none
    | some u0 =>
      let pay_before := u0.gold_coins
      let pay_after := u0.gold_coins + readable_amount
      some ⟨st.pay_records.map (settleRow oid tx_id readable_amount pay_before pay_after),
            st.users.map (settleUser u0.id pay_after)⟩

/-- Pass-scoped working state: the mutable `pending_amounts` vector and the
store it was loaded from. -/
structure PassState where
  pending : List (Int × ℚ)
  store : Store
  deriving DecidableEq

/-- Processing of one feed record past the stop-boundary check
(`main.rs` lines 165-280): normalize, look for the first matching pending
obligation, remove it from the working set, and settle it.  `none` models
the settlement transaction failing, which aborts the pass via `?`. -/
def processRecord (address : String) (s : PassState) (t : TransactionDetail) :
    Option (PassState × List Int) :=
  match normalize address t with
  | none => some (s, [])
  | some obs =>
    match findMatchPos obs.amount s.pending with
    | none => some (s, [])
    | some pos =>
      match s.pending[pos]? with
      | none => some (s, [])
      | some p =>
        match settle s.store p.1 obs.tx_id obs.amount with
        | none => none
        | some st2 => some (⟨s.pending.eraseIdx pos, st2⟩, [p.1])

/-- How the record loop of one page ended. -/
inductive StopKind where
  | ranOut
  | hitStop
  | errored
  deriving DecidableEq

/-- The stop-boundary check at the top of the record loop
(`main.rs` lines 157-163). -/
def stopHit (stop : Option String) (t : TransactionDetail) : Bool :=
  match stop with
  | some sid => t.tx_id == sid
  | none => false

/-- The `for` loop over one page's records: per record, first the
stop-boundary check (terminating the whole pass), then `processRecord`;
the middle component collects the ids of the obligations whose settlement
transactions committed, in order. -/
def runRecords (address : String) (stop : Option String) :
    PassState → List TransactionDetail → PassState × List Int × StopKind
  | s, [] => (s, [], .ranOut)
  | s, t :: ts =>
    if stopHit stop t then (s, [], .hitStop)
    else
      match processRecord address s t with
      | none => (s, [], .errored)
      | some (s1, calls) =>
        match runRecords address stop s1 ts with
        | (s2, more, k) => (s2, calls ++ more, k)

/-- Outcome of one page fetch. -/
inductive PageResult where
  | ok (records : List TransactionDetail) (next : Option String)
  | httpError
  | transportError
  | decodeError
  deriving DecidableEq

/-- Pass-aborting error kinds: transport failure of `reqwest::get`, JSON
decode failure of `response.json()`, and store/settlement failure. -/
inductive PassErr where
  | transport
  | decode
  | storeFail
  deriving DecidableEq

/-- How `fetch_and_process_transactions` returned: `Ok(())` or `Err(e)`. -/
inductive PassOutcome where
  | ok
  | err (e : PassErr)
  deriving DecidableEq

/-- The page loop of `fetch_and_process_transactions` (`main.rs` lines
150-301), driven by the successive fetch outcomes in `pages`: a transport
or decode failure propagates via `?`; a non-success HTTP status `break`s
out (returning `Ok`); otherwise the page's records are processed, then the
pass ends successfully when the stop boundary was hit, when the pending
set has emptied, or when no continuation is provided. -/
def runPass (address : String) (stop : Option String) :
    PassState → List PageResult → PassState × List Int × PassOutcome
  | s, [] => (s, [], .ok)
  | s, p :: ps =>
    match p with
    | .transportError => (s, [], .err .transport)
    | .decodeError => (s, [], .err .decode)
    | .httpError => (s, [], .ok)
    | .ok records next =>
      match runRecords address stop s records with
      | (s1, calls, .hitStop) => (s1, calls, .ok)
      | (s1, calls, .errored) => (s1, calls, .err .storeFail)
      | (s1, calls, .ranOut) =>
        if s1.pending.isEmpty then (s1, calls, .ok)
        else
          match next with
          | some _ =>
            match runPass address stop s1 ps with
            | (s2, more, o) => (s2, calls ++ more, o)
          | none => (s1, calls, .ok)

/-- `SELECT id, pay_token FROM pay_records WHERE is_pay = 0 ORDER BY id
ASC` — the pass's working set (the store list is in ascending-`id`
order, which `filter` preserves). -/
def loadPending (st : Store) : List (Int × ℚ) :=
  (st.pay_records.filter (fun r => !r.is_pay)).map fun r => (r.id, r.pay_token)

/-- `SELECT transaction_id FROM pay_records WHERE id < ? AND is_pay = 1
ORDER BY id DESC LIMIT 1` — the stop boundary for a pass whose smallest
unsettled id is `min_id`. -/
def stopBoundary (st : Store) (min_id : Int) : Option String :=
  ((st.pay_records.filter fun r => decide (r.id < min_id) && r.is_pay).getLast?).map
    fun r => r.transaction_id

/-- One whole call of `fetch_and_process_transactions`: load the pending
set (returning immediately when it is empty), derive the stop boundary
from the smallest unsettled id, and run the page loop. -/
def runPassFull (address : String) (st : Store) (pages : List PageResult) :
    Store × List Int × PassOutcome :=
  match loadPending st with
  | [] => (st, [], .ok)
  | p0 :: rest =>
    match runPass address (stopBoundary st p0.1) ⟨p0 :: rest, st⟩ pages with
    | (s1, calls, o) => (s1.store, calls, o)

/-- What `main` does with the result of a pass: `.ok` lets the outer loop
continue; an error propagates through `main`'s `?` (`main.rs` line 95),
ending the process. -/
inductive MainOutcome where
  | continueLoop
  | processExit (e : PassErr)
  deriving DecidableEq

/-- `fetch_and_process_transactions(..).await?` as seen from `main`. -/
def mainHandle : PassOutcome → MainOutcome
  | .ok => .continueLoop
  | .err e => .processExit e

/-- A sequence of passes over the same store, each pass re-deriving its
working set from the store state the previous pass left (this also covers
passes separated by a process restart, since no engine state survives a
pass).  Returns the final store and all settlement applications, in
order. -/
def runLifetime (address : String) (st : Store) :
    List (List PageResult) → Store × List Int
  | [] => (st, [])
  | pgs :: rest =>
    match runPassFull address st pgs with
    | (st1, calls, _) =>
      match runLifetime address st1 rest with
      | (st2, more) => (st2, calls ++ more)

/-- The `is_pay` flag of the row a settlement transaction would address
(`find?` models the SQL lookup by id). -/
def isPayOf (st : Store) (oid : Int) : Option Bool :=
  (st.pay_records.find? (fun r => r.id == oid)).map fun r => r.is_pay

/-- Working-set invariant threaded through a pass: pending ids are
pairwise distinct and every pending obligation's row is currently
unsettled in the store. -/
def InvP (s : PassState) : Prop :=
  (s.pending.map Prod.fst).Nodup
  ∧ ∀ p ∈ s.pending, isPayOf s.store p.1 = some false

/-- Store-evolution summary of a processing step that applied the
settlements in `calls` (in order): the settled ids are distinct, each was
unsettled before the step and is settled after it, settledness is
monotone, and the row keys are unchanged. -/
def StepOK (st st2 : Store) (calls : List Int) : Prop :=
  calls.Nodup
  ∧ (∀ c ∈ calls, isPayOf st c = some false)
  ∧ (∀ c ∈ calls, isPayOf st2 c = some true)
  ∧ (∀ j, isPayOf st j = some true → isPayOf st2 j = some true)
  ∧ st2.pay_records.map (fun r => r.id) = st.pay_records.map (fun r => r.id)

/-! ### Concrete fixtures used by the counterexamples and witnesses -/

/-- Two pending obligations of expected amount 100 (ids 1 and 2, user 10),
the scenario of the spec's first-match example. -/
def c3Store : Store :=
  ⟨[⟨1, 10, 100, false, "", 0, 0⟩, ⟨2, 10, 100, false, "", 0, 0⟩], [⟨10, 0⟩]⟩

/-- A single feed page holding one USDT transfer of amount 98.5
(raw value 98500000 at 6 declared decimals) into the watched address. -/
def c3Pages : List PageResult :=
  [PageResult.ok [⟨"t1", some ⟨"USDT", 6⟩, some "S", some "A", some (.ok 98500000)⟩] none]

/-- One pending obligation of expected amount `1/2000` (= 0.0005) owned by
user 10 whose balance is 5; an observed amount of `1/4000` matches it
(truncations to 3 decimals agree and the range test holds). -/
def c5Store : Store :=
  ⟨[⟨1, 10, 1/2000, false, "", 0, 0⟩], [⟨10, 5⟩]⟩

/-- The store `settle` leaves after settling obligation 1 of `c5Store`
against an observed transfer `t9` of amount `1/4000`. -/
def c5Store2 : Store := (settle c5Store 1 "t9" (1/4000)).getD c5Store

/-- One pending obligation of expected amount `1/2000`, used to exhibit
the `pay_token` overwrite. -/
def c8Store : Store :=
  ⟨[⟨1, 10, 1/2000, false, "", 0, 0⟩], [⟨10, 5⟩]⟩

/-- One pending obligation whose pass meets a transport error. -/
def c6Store : Store :=
  ⟨[⟨1, 10, 100, false, "", 0, 0⟩], [⟨10, 0⟩]⟩

/-- A store for the lifetime witness: one matchable obligation of expected
amount `1/2000`. -/
def c2Store : Store :=
  ⟨[⟨1, 10, 1/2000, false, "", 0, 0⟩], [⟨10, 5⟩]⟩

/-- One pass whose single page settles the `c2Store` obligation (raw value
1 at 4 declared decimals, i.e. amount `1/10000`). -/
def c2Pages : List (List PageResult) :=
  [[PageResult.ok [⟨"t2", some ⟨"USDT", 4⟩, some "S", some "A", some (.ok 1)⟩] none]]

/-- A settled obligation (id 0, transfer `tstop`) below one pending
obligation (id 1): the stop boundary of the pass is `tstop`. -/
def c4Store : Store :=
  ⟨[⟨0, 10, 50, true, "tstop", 0, 0⟩, ⟨1, 10, 100, false, "", 0, 0⟩], [⟨10, 0⟩]⟩

/-- The feed record carrying the stop-boundary transfer id. -/
def c4b : TransactionDetail := ⟨"tstop", none, none, none, none⟩

/-- A transfer record after the boundary that must never be processed. -/
def c4t2 : TransactionDetail :=
  ⟨"t3", some ⟨"USDT", 6⟩, some "S", some "A", some (.ok 98500000)⟩

/-- A raw record whose `value` string does not parse as a decimal. -/
def c7Bad : TransactionDetail :=
  ⟨"tb", some ⟨"USDT", 6⟩, some "S", some "A", some ParseOutcome.err⟩

/-- Working state for the matcher-rule witness: one pending obligation of
expected amount 100. -/
def c1State : PassState :=
  ⟨[(1, 100)], ⟨[⟨1, 10, 100, false, "", 0, 0⟩], [⟨10, 0⟩]⟩⟩

/-- The 98.5 transfer record used by the matcher-rule witness. -/
def c1t : TransactionDetail :=
  ⟨"t1", some ⟨"USDT", 6⟩, some "S", some "A", some (.ok 98500000)⟩

/-! ### Truncation lemmas -/

/-- Truncation toward zero agrees with the floor on nonnegative rationals
and with the ceiling on negative ones. -/
theorem truncTowardZero_eq (q : ℚ) :
    truncTowardZero q = if 0 ≤ q then ⌊q⌋ else ⌈q⌉ := by
  unfold truncTowardZero
  by_cases h : 0 ≤ q
  · rw [if_pos h]
    have hnum : 0 ≤ q.num := Rat.num_nonneg.mpr h
    rw [Int.tdiv_eq_ediv hnum (Int.ofNat_nonneg _)]
    conv_rhs => rw [← Rat.num_div_den q]
    rw [Rat.floor_intCast_div_natCast]
  · rw [if_neg h]
    have hq : q < 0 := lt_of_not_ge h
    have hnum : q.num < 0 := Rat.num_neg.mpr hq
    have h1 : q.num.tdiv q.den = -((-q.num).tdiv q.den) := by
      rw [Int.neg_tdiv, neg_neg]
    have h2 : (-q.num).tdiv q.den = (-q.num) / (q.den : ℤ) :=
      Int.tdiv_eq_ediv (by omega) (Int.ofNat_nonneg _)
    have h3 : ((-q.num) : ℤ) / (q.den : ℤ) = ⌊(-q : ℚ)⌋ := by
      have hd : (-q).den = q.den := rfl
      have hn : (-q).num = -q.num := rfl
      conv_rhs => rw [← Rat.num_div_den (-q)]
      rw [hd, hn, Rat.floor_intCast_div_natCast]
    rw [h1, h2, h3, Int.floor_neg, neg_neg]

/-- The truncation of `q` is within distance 1 of `q` on either side. -/
theorem truncTowardZero_bounds (q : ℚ) :
    (truncTowardZero q : ℚ) - 1 < q ∧ q < (truncTowardZero q : ℚ) + 1 := by
  rw [truncTowardZero_eq]
  by_cases h : 0 ≤ q
  · rw [if_pos h]
    constructor
    · have := Int.floor_le q
      linarith
    · have := Int.lt_floor_add_one q
      push_cast at this
      linarith
  · rw [if_neg h]
    constructor
    · have := Int.ceil_lt_add_one q
      push_cast at this
      linarith
    · have := Int.le_ceil q
      linarith

/-- Equal scale-3 truncations force equal integer truncations of the
thousandfold values. -/
theorem with_scale3_eq_iff (a b : ℚ) :
    with_scale3 a = with_scale3 b ↔
      truncTowardZero (a * 1000) = truncTowardZero (b * 1000) := by
  unfold with_scale3
  constructor
  · intro h
    field_simp at h
    exact_mod_cast h
  · intro h
    rw [h]

/-- If two amounts truncate equally at scale 3 and the first is below the
second, the gap is below `2/1000`. -/
theorem trunc_eq_gap {a b : ℚ} (h : with_scale3 a = with_scale3 b) :
    b - a < 2 / 1000 := by
  rw [with_scale3_eq_iff] at h
  have ha := truncTowardZero_bounds (a * 1000)
  have hb := truncTowardZero_bounds (b * 1000)
  rw [h] at ha
  linarith [ha.1, ha.2, hb.1, hb.2]

/-- Unfolding of the matcher predicate into its three conditions. -/
theorem matchPred_iff (x y : ℚ) :
    matchPred x y = true ↔
      (y - 2 ≤ x ∧ x < y ∧ with_scale3 y = with_scale3 x) := by
  simp [matchPred, Bool.and_eq_true, decide_eq_true_eq, and_assoc]

/-! ### Row-lookup lemmas -/

/-- `find?` commutes with a map that does not change the predicate's
verdict. -/
theorem find?_map_eq {α : Type} (l : List α) (f : α → α) (p : α → Bool)
    (hf : ∀ a, p (f a) = p a) :
    (l.map f).find? p = (l.find? p).map f := by
  induction l with
  | nil => rfl
  | cons a t ih =>
    cases h : p a with
    | true =>
      rw [List.map_cons, List.find?_cons_of_pos _ (by rw [hf]; exact h),
        List.find?_cons_of_pos _ h]
      rfl
    | false =>
      rw [List.map_cons, List.find?_cons_of_neg _ (by rw [hf, h]; simp),
        List.find?_cons_of_neg _ (by rw [h]; simp), ih]


/-- The `pay_records` update keeps each row's id. -/
theorem settleRow_id (oid : Int) (tx : String) (amt pre post : ℚ)
    (r : PayRecord) : (settleRow oid tx amt pre post r).id = r.id := by
  unfold settleRow
  split <;> rfl

/-- The `user` update keeps each row's id. -/
theorem settleUser_id (uid : Int) (post : ℚ) (u : UserRow) :
    (settleUser uid post u).id = u.id := by
  unfold settleUser
  split <;> rfl

/-- `find?` by id commutes with mapping `settleRow`. -/
theorem find?_map_settleRow (l : List PayRecord) (oid : Int) (tx : String)
    (amt pre post : ℚ) (j : Int) :
    (l.map (settleRow oid tx amt pre post)).find? (fun r => r.id == j)
      = (l.find? (fun r => r.id == j)).map (settleRow oid tx amt pre post) := by
  apply find?_map_eq
  intro a
  simp [settleRow_id]

/-- `find?` by id commutes with mapping `settleUser`. -/
theorem find?_map_settleUser (l : List UserRow) (uid : Int) (post : ℚ)
    (j : Int) :
    (l.map (settleUser uid post)).find? (fun u => u.id == j)
      = (l.find? (fun u => u.id == j)).map (settleUser uid post) := by
  apply find?_map_eq
  intro a
  simp [settleUser_id]

/-- Characterisation of a successful settlement: the joined rows existed
and the resulting store is the two row-wise updates. -/
theorem settle_eq (st : Store) (oid : Int) (tx : String) (amt : ℚ)
    (st2 : Store) (h : settle st oid tx amt = some st2) :
    ∃ r0 u0, st.pay_records.find? (fun r => r.id == oid) = some r0
      ∧ st.users.find? (fun u => u.id == r0.user_id) = some u0
      ∧ st2 = ⟨st.pay_records.map
                 (settleRow oid tx amt u0.gold_coins (u0.gold_coins + amt)),
               st.users.map (settleUser u0.id (u0.gold_coins + amt))⟩ := by
  unfold settle at h
  split at h
  · exact absurd h (by simp)
  · rename_i r0 hr
    split at h
    · exact absurd h (by simp)
    · rename_i u0 hu
      exact ⟨r0, u0, hr, hu, (Option.some_inj.mp h).symm⟩

/-- Settlement does not add, delete or re-key `pay_records` rows. -/
theorem settle_ids (st : Store) (oid : Int) (tx : String) (amt : ℚ)
    (st2 : Store) (h : settle st oid tx amt = some st2) :
    st2.pay_records.map (fun r => r.id) = st.pay_records.map (fun r => r.id) := by
  obtain ⟨r0, u0, _, _, hst⟩ := settle_eq st oid tx amt st2 h
  subst hst
  rw [List.map_map]
  apply List.map_congr_left
  intro r _
  exact settleRow_id oid tx amt _ _ r

/-- Settlement marks the settled row paid. -/
theorem settle_isPay_self (st : Store) (oid : Int) (tx : String) (amt : ℚ)
    (st2 : Store) (h : settle st oid tx amt = some st2) :
    isPayOf st2 oid = some true := by
  obtain ⟨r0, u0, hr, hu, hst⟩ := settle_eq st oid tx amt st2 h
  have hid : r0.id = oid := by simpa using List.find?_some hr
  subst hst
  unfold isPayOf
  rw [find?_map_settleRow, hr]
  simp [settleRow, hid]

/-- Settlement leaves the paid-flag of every other row untouched. -/
theorem settle_isPay_other (st : Store) (oid : Int) (tx : String) (amt : ℚ)
    (st2 : Store) (h : settle st oid tx amt = some st2)
    (j : Int) (hj : j ≠ oid) :
    isPayOf st2 j = isPayOf st j := by
  obtain ⟨r0, u0, _, _, hst⟩ := settle_eq st oid tx amt st2 h
  subst hst
  unfold isPayOf
  rw [find?_map_settleRow]
  cases hf : st.pay_records.find? (fun r => r.id == j) with
  | none => rfl
  | some r1 =>
    have hid : r1.id = j := by simpa using List.find?_some hf
    have hne : (r1.id == oid) = false := by simp [hid, hj]
    simp [settleRow, hne]

/-- Settlement never unmarks a paid row. -/
theorem settle_mono (st : Store) (oid : Int) (tx : String) (amt : ℚ)
    (st2 : Store) (h : settle st oid tx amt = some st2)
    (j : Int) (hj : isPayOf st j = some true) :
    isPayOf st2 j = some true := by
  by_cases hcase : j = oid
  · subst hcase; exact settle_isPay_self st j tx amt st2 h
  · rw [settle_isPay_other st oid tx amt st2 h j hcase]; exact hj

/-- C5: whenever a match is settled, the single transaction sets the
obligation row to paid with `transaction_id` equal to the observed
transfer's id, records the pre-balance snapshot (the user's balance before
the update) and the post-balance snapshot (that balance plus the observed
amount), and sets the user's balance to exactly the old balance plus the
observed transfer amount — the observed amount, not the obligation's
expected amount — in exact decimal (rational) arithmetic. -/
theorem settlement_transaction_fields (st : Store) (oid : Int)
    (obs : ObservedTransfer) (st2 : Store) (r0 : PayRecord) (u0 : UserRow)
    (h : settle st oid obs.tx_id obs.amount = some st2)
    (hr : st.pay_records.find? (fun r => r.id == oid) = some r0)
    (hu : st.users.find? (fun u => u.id == r0.user_id) = some u0) :
    st2.pay_records.find? (fun r => r.id == oid)
      = some { r0 with transaction_id := obs.tx_id, pay_token := obs.amount,
                       is_pay := true,
                       pay_before_gold_coins := u0.gold_coins,
                       pay_after_gold_coins := u0.gold_coins + obs.amount }
    ∧ st2.users.find? (fun u => u.id == r0.user_id)
      = some { u0 with gold_coins := u0.gold_coins + obs.amount } := by
  obtain ⟨r1, u1, hr1, hu1, hst⟩ := settle_eq st oid obs.tx_id obs.amount st2 h
  rw [hr] at hr1
  obtain rfl : r0 = r1 := Option.some_inj.mp hr1
  rw [hu] at hu1
  obtain rfl : u0 = u1 := Option.some_inj.mp hu1
  have hid : r0.id = oid := by simpa using List.find?_some hr
  have huid : u0.id = r0.user_id := by simpa using List.find?_some hu
  subst hst
  constructor
  · rw [find?_map_settleRow, hr]
    simp [settleRow, hid]
  · rw [find?_map_settleUser, hu]
    simp [settleUser, huid]

/-- Witness for the settlement-fields theorem at the `c5Store` fixture. -/
theorem settlement_transaction_fields_witness :
    c5Store2.pay_records.find? (fun r => r.id == 1)
      = some ⟨1, 10, 1/4000, true, "t9", 5, 5 + 1/4000⟩
    ∧ c5Store2.users.find? (fun u => u.id == 10)
      = some ⟨10, 5 + 1/4000⟩ :=
  settlement_transaction_fields c5Store 1 ⟨"t9", "S", "A", 1/4000⟩
    c5Store2 ⟨1, 10, 1/2000, false, "", 0, 0⟩ ⟨10, 5⟩
    (by with_unfolding_all rfl)
    (by with_unfolding_all rfl)
    (by with_unfolding_all rfl)

/-- C8 fails: settling obligation 1 (expected amount `1/2000`) against a
matching observed transfer of `1/4000` overwrites the `pay_token` column —
the expected amount `1/2000` is replaced by the observed `1/4000`, which
differs from it (and the pair does satisfy the matcher predicate). -/
theorem pay_token_overwritten_cex :
    ((settle c8Store 1 "t9" (1/4000)).map fun st =>
        st.pay_records.map fun r => r.pay_token) = some [1/4000]
    ∧ (1/4000 : ℚ) ≠ 1/2000
    ∧ matchPred (1/4000) (1/2000) = true := by
  refine ⟨by with_unfolding_all rfl, by norm_num, by with_unfolding_all rfl⟩

/-- C8 (amended): `pay_token` is immutable except under settlement, which
overwrites the settled row's `pay_token` with the observed transfer
amount; every row other than the settled one keeps its `pay_token` (and
settlement is the only store-writing engine operation). -/
theorem settle_pay_token_update (st : Store) (oid : Int) (tx : String)
    (amt : ℚ) (st2 : Store) (h : settle st oid tx amt = some st2) :
    ((st2.pay_records.find? (fun r => r.id == oid)).map fun r => r.pay_token)
      = some amt
    ∧ ∀ r2 ∈ st2.pay_records, r2.id ≠ oid →
        ∃ r ∈ st.pay_records, r.id = r2.id ∧ r2.pay_token = r.pay_token := by
  obtain ⟨r0, u0, hr, _, hst⟩ := settle_eq st oid tx amt st2 h
  have hid : r0.id = oid := by simpa using List.find?_some hr
  subst hst
  constructor
  · rw [find?_map_settleRow, hr]
    simp [settleRow, hid]
  · intro r2 hr2 hne
    obtain ⟨r, hrl, hfr⟩ := List.mem_map.mp hr2
    by_cases hcase : (r.id == oid) = true
    · exfalso
      apply hne
      rw [← hfr]
      simp only [settleRow, hcase, if_true]
      exact beq_iff_eq.mp hcase
    · refine ⟨r, hrl, ?_, ?_⟩
      · rw [← hfr]
        simp [settleRow, hcase]
      · rw [← hfr]
        simp [settleRow, hcase]

/-- Witness for the `pay_token` update theorem at the `c8Store` fixture. -/
theorem settle_pay_token_update_witness :
    (((settle c8Store 1 "t8" (1/4000)).getD c8Store).pay_records.find?
        (fun r => r.id == 1)).map (fun r => r.pay_token) = some (1/4000)
    ∧ ∀ r2 ∈ ((settle c8Store 1 "t8" (1/4000)).getD c8Store).pay_records,
        r2.id ≠ 1 →
        ∃ r ∈ c8Store.pay_records, r.id = r2.id ∧ r2.pay_token = r.pay_token :=
  settle_pay_token_update c8Store 1 "t8" (1/4000)
    ((settle c8Store 1 "t8" (1/4000)).getD c8Store)
    (by with_unfolding_all rfl)

/-- C1: the Matcher considers a pending obligation a candidate for an
observed transfer iff both the range test `expected - 2 ≤ observed <
expected` and equality of the two amounts truncated (toward zero, not
rounded) to 3 decimal places hold; a transfer for which no pending
obligation satisfies the predicate yields no match and is skipped —
`processRecord` leaves the working state unchanged and applies no
settlement. -/
theorem matcher_candidate_rule (readable expected : ℚ) (address : String)
    (s : PassState) (t : TransactionDetail) (obs : ObservedTransfer)
    (hobs : normalize address t = some obs)
    (hnone : ∀ p ∈ s.pending, matchPred obs.amount p.2 = false) :
    (matchPred readable expected = true ↔
      (expected - 2 ≤ readable ∧ readable < expected ∧
        with_scale3 expected = with_scale3 readable))
    ∧ processRecord address s t = some (s, []) := by
  refine ⟨matchPred_iff readable expected, ?_⟩
  have hfind : findMatchPos obs.amount s.pending = none := by
    unfold findMatchPos
    rw [List.findIdx?_eq_none_iff]
    exact hnone
  simp only [processRecord, hobs, hfind]

/-- Witness for the matcher rule: the 98.5 transfer against a pending
obligation of 100. -/
theorem matcher_candidate_rule_witness :
    (matchPred (197/2) 100 = true ↔
      ((100:ℚ) - 2 ≤ 197/2 ∧ (197/2:ℚ) < 100 ∧
        with_scale3 100 = with_scale3 (197/2)))
    ∧ processRecord "A" c1State c1t = some (c1State, []) :=
  matcher_candidate_rule (197/2) 100 "A" c1State c1t ⟨"t1", "S", "A", 197/2⟩
    (by with_unfolding_all rfl)
    (by with_unfolding_all decide)

/-- C9 fails as stated: for observed `-9/10000` and expected `9/10000` the
scale-3 truncations agree (both truncate toward zero to 0) and the
observed amount is below the expected one, yet the difference `18/10000`
is not below `1/1000`. -/
theorem trunc_gap_cex :
    with_scale3 (-9/10000) = with_scale3 (9/10000)
    ∧ (-9/10000 : ℚ) < 9/10000
    ∧ ¬((9/10000 : ℚ) - (-9/10000) < 1/1000) := by
  refine ⟨by with_unfolding_all rfl, by norm_num, by norm_num⟩

/-- C9 (amended): equal truncations-to-3-decimals with `a < b` bound the
gap by `2/1000` (not `1/1000`: truncation toward zero lets amounts of
opposite sign share a truncation), which still makes the tolerance lower
bound `b - 2 ≤ a` automatic, so the matcher predicate is equivalent to the
conjunction of `a < b` and truncated-equality. -/
theorem tolerance_lower_bound_redundant (a b : ℚ)
    (htr : with_scale3 a = with_scale3 b) (hab : a < b) :
    b - a < 2 / 1000 ∧ b - 2 ≤ a
    ∧ (∀ x y : ℚ, matchPred x y = true ↔
        (x < y ∧ with_scale3 y = with_scale3 x)) := by
  have hgap := trunc_eq_gap htr
  refine ⟨hgap, by linarith, ?_⟩
  intro x y
  rw [matchPred_iff]
  constructor
  · rintro ⟨h1, h2, h3⟩
    exact ⟨h2, h3⟩
  · rintro ⟨h2, h3⟩
    have hxy : y - x < 2/1000 := trunc_eq_gap h3.symm
    exact ⟨by linarith, h2, h3⟩

/-- Witness for the amended C9 statement at `a = 0`, `b = 1/2000`. -/
theorem tolerance_lower_bound_redundant_witness :
    (1/2000 : ℚ) - 0 < 2/1000 ∧ (1/2000 : ℚ) - 2 ≤ 0
    ∧ (∀ x y : ℚ, matchPred x y = true ↔
        (x < y ∧ with_scale3 y = with_scale3 x)) :=
  tolerance_lower_bound_redundant 0 (1/2000)
    (by with_unfolding_all rfl) (by norm_num)

/-- C10: for declared decimals at most 19 the u64 divisor `10 ^ decimals`
is exact (no wrap) and positive, so the scaling division is well defined,
while any declared decimals of 20 or more overflows the u64 range; the
filter never discards a record because of its declared decimals. -/
theorem divisor_scaling_total (d : Nat) (address tid f : String)
    (v : ParseOutcome) (t : TransactionDetail)
    (ht : t = ⟨tid, some ⟨"USDT", d⟩, some f, some address, some v⟩) :
    (d ≤ 19 → divisorU64 d = 10 ^ d ∧ 0 < divisorU64 d)
    ∧ (20 ≤ d → 2 ^ 64 ≤ 10 ^ d)
    ∧ (normalize address t).isSome = true := by
  refine ⟨?_, ?_, ?_⟩
  · intro hd
    have hlt : 10 ^ d < 2 ^ 64 := by
      calc 10 ^ d ≤ 10 ^ 19 := Nat.pow_le_pow_right (by norm_num) hd
      _ < 2 ^ 64 := by norm_num
    refine ⟨Nat.mod_eq_of_lt hlt, ?_⟩
    unfold divisorU64
    rw [Nat.mod_eq_of_lt hlt]
    exact Nat.pos_pow_of_pos d (by norm_num)
  · intro hd
    calc (2:ℕ) ^ 64 ≤ 10 ^ 20 := by norm_num
    _ ≤ 10 ^ d := Nat.pow_le_pow_right (by norm_num) hd
  · subst ht
    simp [normalize]

/-- Witness for the scaling theorem at 20 declared decimals. -/
theorem divisor_scaling_total_witness :
    ((20 ≤ 19 → divisorU64 20 = 10 ^ 20 ∧ 0 < divisorU64 20)
    ∧ (20 ≤ 20 → 2 ^ 64 ≤ 10 ^ 20)
    ∧ (normalize "A" ⟨"t1", some ⟨"USDT", 20⟩, some "S", some "A",
         some ParseOutcome.err⟩).isSome = true) :=
  divisor_scaling_total 20 "A" "t1" "S" ParseOutcome.err _ rfl

/-- C7 fails: a record whose amount field is present but unparsable is not
discarded — normalization produces an observed transfer (with amount 0),
and that transfer is matched against a pending obligation of expected
amount `1/2000`. -/
theorem unparsable_amount_cex :
    normalize "A" c7Bad = some ⟨"tb", "S", "A", 0⟩
    ∧ findMatchPos 0 [(7, 1/2000)] = some 0 := by
  refine ⟨by with_unfolding_all rfl, by with_unfolding_all rfl⟩

/-- C7 (amended): an amount field that is present but unparsable is
replaced by `BigDecimal::from(0)` rather than the record being discarded;
the resulting observed transfer has amount 0 and is matched by any pending
obligation whose expected amount lies strictly between 0 and `1/1000`. -/
theorem unparsable_amount_zero (address tid f dest : String) (d : Nat)
    (t : TransactionDetail)
    (ht : t = ⟨tid, some ⟨"USDT", d⟩, some f, some dest, some ParseOutcome.err⟩)
    (hdest : dest = address) :
    normalize address t = some ⟨tid, f, dest, 0⟩
    ∧ (∀ b : ℚ, 0 < b → b < 1 / 1000 → matchPred 0 b = true) := by
  constructor
  · subst ht hdest
    simp [normalize]
  · intro b hb0 hb1
    rw [matchPred_iff]
    refine ⟨by linarith, hb0, ?_⟩
    rw [show with_scale3 0 = 0 from by with_unfolding_all rfl]
    unfold with_scale3
    have htr0 : truncTowardZero (b * 1000) = 0 := by
      rw [truncTowardZero_eq, if_pos (by nlinarith)]
      rw [Int.floor_eq_zero_iff]
      exact Set.mem_Ico.mpr ⟨by nlinarith, by nlinarith⟩
    rw [htr0]
    norm_num

/-- Witness for the unparsable-amount theorem. -/
theorem unparsable_amount_zero_witness :
    normalize "A" ⟨"t2", some ⟨"USDT", 3⟩, some "S", some "A",
        some ParseOutcome.err⟩ = some ⟨"t2", "S", "A", 0⟩
    ∧ (∀ b : ℚ, 0 < b → b < 1 / 1000 → matchPred 0 b = true) :=
  unparsable_amount_zero "A" "t2" "S" "A" 3 _ rfl rfl

/-- C3 fails: on the spec's own scenario (pending obligations of 100 and
100, transfer of 98.5) the engine settles nothing — the settlement call
list is empty and obligation 1 is still unsettled. -/
theorem first_match_scenario_cex :
    (runPassFull "A" c3Store c3Pages).2.1 = []
    ∧ isPayOf (runPassFull "A" c3Store c3Pages).1 1 = some false := by
  refine ⟨by with_unfolding_all rfl, by with_unfolding_all rfl⟩

/-- C3 (amended): with pending obligations `[{id 1, 100}, {id 2, 100}]`
loaded in ascending-id order and an observed transfer of 98.5, the engine
settles neither obligation and the pass ends with the store unchanged: the
transfer fails the truncated-3-decimals test against 100, so it is skipped
and both obligations remain unsettled. -/
theorem first_match_scenario_run :
    runPassFull "A" c3Store c3Pages = (c3Store, [], PassOutcome.ok)
    ∧ matchPred (197/2) 100 = false := by
  refine ⟨by with_unfolding_all rfl, by with_unfolding_all rfl⟩

/-- C6 fails: a feed transport error does not merely abort the pass — the
error propagates out of the pass and through the `?` in `main`,
terminating the process. -/
theorem transport_error_exits_cex :
    mainHandle (runPassFull "A" c6Store [PageResult.transportError]).2.2
      = MainOutcome.processExit PassErr.transport := by
  with_unfolding_all rfl

/-- C6 (amended): only a non-success HTTP status is pass-scoped — the page
loop breaks and the pass reports success, so the main loop idles and
retries from fresh store state; transport errors, malformed page bodies
and store/settlement failures are returned as errors, which `main`
propagates, terminating the process. -/
theorem error_handling_pass_scope (address : String) (stop : Option String)
    (s : PassState) (ps : List PageResult) :
    runPass address stop s (PageResult.httpError :: ps) = (s, [], PassOutcome.ok)
    ∧ mainHandle PassOutcome.ok = MainOutcome.continueLoop
    ∧ ∀ e, mainHandle (PassOutcome.err e) = MainOutcome.processExit e :=
  ⟨rfl, rfl, fun _ => rfl⟩

/-! ### At-most-once settlement machinery -/

/-- The empty step leaves the store unchanged. -/
theorem stepOK_rfl (st : Store) : StepOK st st [] :=
  ⟨List.nodup_nil, by simp, by simp, fun _ h => h, rfl⟩

/-- A row id is unresolvable exactly when it keys no row. -/
theorem isPayOf_eq_none_iff (st : Store) (j : Int) :
    isPayOf st j = none ↔ j ∉ st.pay_records.map (fun r => r.id) := by
  unfold isPayOf
  constructor
  · intro h hmem
    obtain ⟨r, hr, hid⟩ := List.mem_map.mp hmem
    cases hf : st.pay_records.find? (fun r => r.id == j) with
    | none =>
      rw [List.find?_eq_none] at hf
      exact hf r hr (by simp [hid])
    | some r1 =>
      rw [hf] at h
      exact absurd h (by simp)
  · intro hmem
    cases hf : st.pay_records.find? (fun r => r.id == j) with
    | none => rfl
    | some r1 =>
      exfalso
      apply hmem
      have hid : r1.id = j := by simpa using List.find?_some hf
      have hr1 : r1 ∈ st.pay_records := List.mem_of_find?_eq_some hf
      exact hid ▸ List.mem_map_of_mem _ hr1

/-- Step summaries compose. -/
theorem stepOK_trans (st st1 st2 : Store) (c1 c2 : List Int)
    (h1 : StepOK st st1 c1) (h2 : StepOK st1 st2 c2) :
    StepOK st st2 (c1 ++ c2) := by
  obtain ⟨n1, f1, t1, m1, i1⟩ := h1
  obtain ⟨n2, f2, t2, m2, i2⟩ := h2
  have hback : ∀ c ∈ c2, isPayOf st c = some false := by
    intro c hc
    have hf2 := f2 c hc
    cases hst : isPayOf st c with
    | none =>
      exfalso
      have hnone : isPayOf st1 c = none := by
        rw [isPayOf_eq_none_iff] at hst ⊢
        rw [i1]
        exact hst
      rw [hnone] at hf2
      exact Option.noConfusion hf2
    | some b =>
      cases b with
      | false => rfl
      | true =>
        exfalso
        have hm := m1 c hst
        rw [hm] at hf2
        simp at hf2
  refine ⟨?_, ?_, ?_, ?_, i2.trans i1⟩
  · refine List.Nodup.append n1 n2 ?_
    intro a ha1 ha2
    have h1t := t1 a ha1
    have h2f := f2 a ha2
    rw [h1t] at h2f
    simp at h2f
  · intro c hc
    rcases List.mem_append.mp hc with h | h
    · exact f1 c h
    · exact hback c h
  · intro c hc
    rcases List.mem_append.mp hc with h | h
    · exact m2 c (t1 c h)
    · exact t2 c h
  · intro j hj
    exact m2 j (m1 j hj)

/-- A single applied settlement is a one-call step. -/
theorem settle_stepOK (st : Store) (oid : Int) (tx : String) (amt : ℚ)
    (st2 : Store) (h : settle st oid tx amt = some st2)
    (hfalse : isPayOf st oid = some false) :
    StepOK st st2 [oid] := by
  refine ⟨List.nodup_singleton _, ?_, ?_,
    fun j hj => settle_mono st oid tx amt st2 h j hj,
    settle_ids st oid tx amt st2 h⟩
  · intro c hc
    rw [List.mem_singleton.mp hc]
    exact hfalse
  · intro c hc
    rw [List.mem_singleton.mp hc]
    exact settle_isPay_self st oid tx amt st2 h

/-- Erasing the position holding id `oid` removes the only occurrence of
`oid` among the pending ids. -/
theorem eraseIdx_fst_ne (l : List (Int × ℚ)) (pos : Nat) (oid : Int)
    (amt : ℚ) (hnd : (l.map Prod.fst).Nodup)
    (hg : l[pos]? = some (oid, amt)) :
    ∀ p ∈ l.eraseIdx pos, p.1 ≠ oid := by
  induction l generalizing pos with
  | nil => simp at hg
  | cons a t ih =>
    cases pos with
    | zero =>
      have hg2 : a = (oid, amt) := by simpa using hg
      subst hg2
      intro p hp
      rw [List.eraseIdx_cons_zero] at hp
      have hnd2 : ((oid, amt).1 :: t.map Prod.fst).Nodup := by simpa using hnd
      obtain ⟨hh, -⟩ := List.nodup_cons.mp hnd2
      intro heq
      apply hh
      have hmm := List.mem_map_of_mem Prod.fst hp
      rw [heq] at hmm
      exact hmm
    | succ n =>
      have hg2 : t[n]? = some (oid, amt) := by simpa using hg
      intro p hp
      rw [List.eraseIdx_cons_succ] at hp
      have hnd2 : (a.1 :: t.map Prod.fst).Nodup := by simpa using hnd
      obtain ⟨hh, hndt⟩ := List.nodup_cons.mp hnd2
      rcases List.mem_cons.mp hp with rfl | hpt
      · have hmem : (oid, amt) ∈ t := List.getElem?_mem hg2
        intro heq
        apply hh
        rw [heq]
        exact List.mem_map_of_mem Prod.fst hmem
      · exact ih n hndt hg2 p hpt

/-- Processing one record preserves the working-set invariant and is a
valid step. -/
theorem processRecord_ok (address : String) (s : PassState)
    (t : TransactionDetail) (s1 : PassState) (calls : List Int)
    (hinv : InvP s) (h : processRecord address s t = some (s1, calls)) :
    InvP s1 ∧ StepOK s.store s1.store calls := by
  unfold processRecord at h
  split at h
  · simp only [Option.some_inj, Prod.mk.injEq] at h
    obtain ⟨rfl, rfl⟩ := h
    exact ⟨hinv, stepOK_rfl s.store⟩
  · rename_i obs hobs
    split at h
    · simp only [Option.some_inj, Prod.mk.injEq] at h
      obtain ⟨rfl, rfl⟩ := h
      exact ⟨hinv, stepOK_rfl s.store⟩
    · rename_i pos hpos
      split at h
      · simp only [Option.some_inj, Prod.mk.injEq] at h
        obtain ⟨rfl, rfl⟩ := h
        exact ⟨hinv, stepOK_rfl s.store⟩
      · rename_i q hg
        split at h
        · exact absurd h (by simp)
        · rename_i st2 hs
          simp only [Option.some_inj, Prod.mk.injEq] at h
          obtain ⟨rfl, rfl⟩ := h.symm
          have hmem : q ∈ s.pending := List.getElem?_mem hg
          have hfalse : isPayOf s.store q.1 = some false := hinv.2 _ hmem
          constructor
          · constructor
            · exact List.Nodup.sublist
                (List.Sublist.map Prod.fst (List.eraseIdx_sublist s.pending pos))
                hinv.1
            · intro p hp
              have hpmem : p ∈ s.pending := List.mem_of_mem_eraseIdx hp
              have hne : p.1 ≠ q.1 :=
                eraseIdx_fst_ne s.pending pos q.1 q.2 hinv.1 hg p hp
              rw [settle_isPay_other s.store q.1 obs.tx_id obs.amount st2 hs p.1 hne]
              exact hinv.2 p hpmem
          · exact settle_stepOK s.store q.1 obs.tx_id obs.amount st2 hs hfalse

/-- The record loop of one page preserves the invariant and is a valid
step. -/
theorem runRecords_ok (address : String) (stop : Option String)
    (s : PassState) (ts : List TransactionDetail) (hinv : InvP s) :
    InvP (runRecords address stop s ts).1
    ∧ StepOK s.store (runRecords address stop s ts).1.store
        (runRecords address stop s ts).2.1 := by
  induction ts generalizing s with
  | nil => exact ⟨hinv, stepOK_rfl s.store⟩
  | cons t ts ih =>
    by_cases hst : stopHit stop t
    · rw [show runRecords address stop s (t :: ts) = (s, [], .hitStop) from by
        simp [runRecords, hst]]
      exact ⟨hinv, stepOK_rfl s.store⟩
    · cases hp : processRecord address s t with
      | none =>
        rw [show runRecords address stop s (t :: ts) = (s, [], .errored) from by
          simp [runRecords, hst, hp]]
        exact ⟨hinv, stepOK_rfl s.store⟩
      | some pr =>
        obtain ⟨s2, calls⟩ := pr
        obtain ⟨hinv2, hstep2⟩ := processRecord_ok address s t s2 calls hinv hp
        obtain ⟨hinv3, hstep3⟩ := ih s2 hinv2
        cases hr : runRecords address stop s2 ts with
        | mk s3 rest3 =>
          cases rest3 with
          | mk more k =>
            rw [hr] at hinv3 hstep3
            rw [show runRecords address stop s (t :: ts) = (s3, calls ++ more, k) from by
              simp [runRecords, hst, hp, hr]]
            exact ⟨hinv3, stepOK_trans _ _ _ _ _ hstep2 hstep3⟩

/-- The page loop preserves the invariant and is a valid step. -/
theorem runPass_ok (address : String) (stop : Option String)
    (s : PassState) (ps : List PageResult) (hinv : InvP s) :
    InvP (runPass address stop s ps).1
    ∧ StepOK s.store (runPass address stop s ps).1.store
        (runPass address stop s ps).2.1 := by
  induction ps generalizing s with
  | nil => exact ⟨hinv, stepOK_rfl s.store⟩
  | cons p ps ih =>
    cases p with
    | transportError => exact ⟨hinv, stepOK_rfl s.store⟩
    | decodeError => exact ⟨hinv, stepOK_rfl s.store⟩
    | httpError => exact ⟨hinv, stepOK_rfl s.store⟩
    | ok records next =>
      obtain ⟨hinvR, hstepR⟩ := runRecords_ok address stop s records hinv
      cases hr : runRecords address stop s records with
      | mk s1 rest1 =>
        cases rest1 with
        | mk calls k =>
          rw [hr] at hinvR hstepR
          cases k with
          | hitStop =>
            rw [show runPass address stop s (PageResult.ok records next :: ps)
                = (s1, calls, .ok) from by simp [runPass, hr]]
            exact ⟨hinvR, hstepR⟩
          | errored =>
            rw [show runPass address stop s (PageResult.ok records next :: ps)
                = (s1, calls, .err .storeFail) from by simp [runPass, hr]]
            exact ⟨hinvR, hstepR⟩
          | ranOut =>
            by_cases hemp : s1.pending.isEmpty
            · rw [show runPass address stop s (PageResult.ok records next :: ps)
                  = (s1, calls, .ok) from by simp [runPass, hr, hemp]]
              exact ⟨hinvR, hstepR⟩
            · cases next with
              | none =>
                rw [show runPass address stop s (PageResult.ok records none :: ps)
                    = (s1, calls, .ok) from by simp [runPass, hr, hemp]]
                exact ⟨hinvR, hstepR⟩
              | some nxt =>
                obtain ⟨hinv2, hstep2⟩ := ih s1 hinvR
                cases hr2 : runPass address stop s1 ps with
                | mk s2 rest2 =>
                  cases rest2 with
                  | mk more o =>
                    rw [hr2] at hinv2 hstep2
                    rw [show runPass address stop s (PageResult.ok records (some nxt) :: ps)
                        = (s2, calls ++ more, o) from by
                      simp [runPass, hr, hemp, hr2]]
                    exact ⟨hinv2, stepOK_trans _ _ _ _ _ hstepR hstep2⟩

/-- With distinct ids, the row lookup of a member finds that member. -/
theorem find?_of_nodup_mem (l : List PayRecord)
    (hnd : (l.map (fun r => r.id)).Nodup) (r : PayRecord) (hr : r ∈ l) :
    l.find? (fun x => x.id == r.id) = some r := by
  induction l with
  | nil => cases hr
  | cons a t ih =>
    have hnd2 : (a.id :: t.map (fun r => r.id)).Nodup := by simpa using hnd
    obtain ⟨hh, hndt⟩ := List.nodup_cons.mp hnd2
    rcases List.mem_cons.mp hr with rfl | hrt
    · rw [List.find?_cons_of_pos _ (by simp)]
    · have hane : ¬(a.id == r.id) = true := by
        simp only [beq_iff_eq]
        intro heq
        apply hh
        rw [heq]
        exact List.mem_map_of_mem _ hrt
      have hstep : List.find? (fun x => x.id == r.id) (a :: t)
          = List.find? (fun x => x.id == r.id) t :=
        List.find?_cons_of_neg t hane
      rw [hstep]
      exact ih hndt hrt

/-- The freshly loaded working set satisfies the invariant. -/
theorem loadPending_invP (st : Store)
    (hnd : (st.pay_records.map (fun r => r.id)).Nodup) :
    InvP ⟨loadPending st, st⟩ := by
  constructor
  · unfold loadPending
    rw [List.map_map]
    exact List.Nodup.sublist
      (List.Sublist.map _ (List.filter_sublist _)) hnd
  · intro p hp
    unfold loadPending at hp
    obtain ⟨r, hrf, hrp⟩ := List.mem_map.mp hp
    have hrl : r ∈ st.pay_records := List.mem_of_mem_filter hrf
    have hpay : r.is_pay = false := by
      have := List.of_mem_filter hrf
      simpa using this
    have hfind := find?_of_nodup_mem st.pay_records hnd r hrl
    subst hrp
    unfold isPayOf
    rw [hfind]
    simp [hpay]

/-- A whole pass is a valid step from the store it started on. -/
theorem runPassFull_ok (address : String) (st : Store)
    (pgs : List PageResult)
    (hnd : (st.pay_records.map (fun r => r.id)).Nodup) :
    StepOK st (runPassFull address st pgs).1 (runPassFull address st pgs).2.1 := by
  cases hlp : loadPending st with
  | nil =>
    rw [show runPassFull address st pgs = (st, [], .ok) from by
      simp [runPassFull, hlp]]
    exact stepOK_rfl st
  | cons p0 rest =>
    have hinv : InvP ⟨p0 :: rest, st⟩ := by
      rw [← hlp]
      exact loadPending_invP st hnd
    obtain ⟨-, hstep⟩ :=
      runPass_ok address (stopBoundary st p0.1) ⟨p0 :: rest, st⟩ pgs hinv
    cases hr : runPass address (stopBoundary st p0.1) ⟨p0 :: rest, st⟩ pgs with
    | mk s1 rest2 =>
      cases rest2 with
      | mk calls o =>
        rw [hr] at hstep
        rw [show runPassFull address st pgs = (s1.store, calls, o) from by
          simp [runPassFull, hlp, hr]]
        exact hstep

/-- A whole lifetime of passes is a valid step, so its settlement calls
are pairwise distinct. -/
theorem runLifetime_ok (address : String) (st : Store)
    (passes : List (List PageResult))
    (hnd : (st.pay_records.map (fun r => r.id)).Nodup) :
    StepOK st (runLifetime address st passes).1 (runLifetime address st passes).2 := by
  induction passes generalizing st with
  | nil => exact stepOK_rfl st
  | cons pgs rest ih =>
    have h1 := runPassFull_ok address st pgs hnd
    cases hr : runPassFull address st pgs with
    | mk st1 rest2 =>
      cases rest2 with
      | mk calls o =>
        rw [hr] at h1
        have hnd1 : (st1.pay_records.map (fun r => r.id)).Nodup := by
          rw [h1.2.2.2.2]
          exact hnd
        have h2 := ih st1 hnd1
        cases hr2 : runLifetime address st1 rest with
        | mk st2 more =>
          rw [hr2] at h2
          rw [show runLifetime address st (pgs :: rest) = (st2, calls ++ more) from by
            simp [runLifetime, hr, hr2]]
          exact stepOK_trans st st1 st2 calls more h1 h2

/-- C2: over an obligation's lifetime — any sequence of passes, each
re-deriving its working set from the store state the previous pass left —
settlement is applied at most once per obligation: every pass loads only
unsettled (`is_pay = 0`) rows into its working set, and a matched
obligation is removed from the working set before its settlement is
attempted, so no later transfer of the same pass and no later pass can
settle it a second time. -/
theorem settlement_applied_at_most_once (address : String) (st : Store)
    (passes : List (List PageResult)) (oid : Int)
    (hnd : (st.pay_records.map (fun r => r.id)).Nodup) :
    ((runLifetime address st passes).2).count oid ≤ 1 := by
  have h := runLifetime_ok address st passes hnd
  exact List.nodup_iff_count_le_one.mp h.1 oid

/-- Witness: a lifetime of two passes over `c2Store` (the second pass
replays the same feed page) settles obligation 1 at most once. -/
theorem settlement_applied_at_most_once_witness :
    ((runLifetime "A" c2Store (c2Pages ++ c2Pages)).2).count 1 ≤ 1 :=
  settlement_applied_at_most_once "A" c2Store (c2Pages ++ c2Pages) 1
    (by with_unfolding_all decide)

/-- Meeting the stop-boundary record ends the record loop exactly in the
state reached before it. -/
theorem runRecords_stop (address : String) (stopId : String) (s : PassState)
    (l1 l2 : List TransactionDetail) (b : TransactionDetail)
    (s1 : PassState) (calls : List Int)
    (hb : b.tx_id = stopId)
    (hl1 : ∀ r ∈ l1, r.tx_id ≠ stopId)
    (hrun : runRecords address (some stopId) s l1 = (s1, calls, StopKind.ranOut)) :
    runRecords address (some stopId) s (l1 ++ b :: l2)
      = (s1, calls, StopKind.hitStop) := by
  induction l1 generalizing s calls with
  | nil =>
    simp only [runRecords, Prod.mk.injEq] at hrun
    obtain ⟨rfl, rfl, -⟩ := hrun
    simp [runRecords, stopHit, hb]
  | cons t ts ih =>
    have hstop : stopHit (some stopId) t = false := by
      simpa [stopHit] using hl1 t (List.mem_cons_self t ts)
    cases hp : processRecord address s t with
    | none =>
      exfalso
      rw [show runRecords address (some stopId) s (t :: ts) = (s, [], .errored) from by
        simp [runRecords, hstop, hp]] at hrun
      simp at hrun
    | some pr =>
      obtain ⟨s2, cs⟩ := pr
      cases hr : runRecords address (some stopId) s2 ts with
      | mk s3 rest3 =>
        cases rest3 with
        | mk more k =>
          rw [show runRecords address (some stopId) s (t :: ts)
              = (s3, cs ++ more, k) from by
            simp [runRecords, hstop, hp, hr]] at hrun
          simp only [Prod.mk.injEq] at hrun
          obtain ⟨rfl, hcm, hk⟩ := hrun
          subst hcm
          subst hk
          have hih := ih s2 more
            (fun r hrm => hl1 r (List.mem_cons_of_mem t hrm)) hr
          rw [List.cons_append]
          simp [runRecords, hstop, hp, hih]

/-- C4: when a fetched page contains a record whose transfer id equals the
pass's stop boundary — the `transaction_id` of the most recent settled
obligation whose id is below the smallest unsettled id — and the records
before it processed normally, the pass returns success in exactly the
state reached before that record: the boundary record is not processed, no
later record of the page is processed, no further page is fetched, and
every obligation still pending at that point is left unsettled. -/
theorem stop_boundary_halts (address : String) (st : Store) (stopId : String)
    (l1 l2 : List TransactionDetail) (b : TransactionDetail)
    (next : Option String) (ps : List PageResult)
    (p0 : Int × ℚ) (rest : List (Int × ℚ))
    (s1 : PassState) (calls : List Int)
    (hnd : (st.pay_records.map (fun r => r.id)).Nodup)
    (hpend : loadPending st = p0 :: rest)
    (hstop : stopBoundary st p0.1 = some stopId)
    (hb : b.tx_id = stopId)
    (hl1 : ∀ r ∈ l1, r.tx_id ≠ stopId)
    (hrun : runRecords address (some stopId) ⟨p0 :: rest, st⟩ l1
      = (s1, calls, StopKind.ranOut)) :
    runPassFull address st (PageResult.ok (l1 ++ b :: l2) next :: ps)
      = (s1.store, calls, PassOutcome.ok)
    ∧ ∀ p ∈ s1.pending, isPayOf s1.store p.1 = some false := by
  have hrec := runRecords_stop address stopId _ l1 l2 b s1 calls hb hl1 hrun
  constructor
  · have hpass : runPass address (some stopId) ⟨p0 :: rest, st⟩
        (PageResult.ok (l1 ++ b :: l2) next :: ps) = (s1, calls, .ok) := by
      simp [runPass, hrec]
    simp [runPassFull, hpend, hstop, hpass]
  · have hinv : InvP ⟨p0 :: rest, st⟩ := by
      rw [← hpend]
      exact loadPending_invP st hnd
    have h := runRecords_ok address (some stopId) ⟨p0 :: rest, st⟩ l1 hinv
    rw [hrun] at h
    exact h.1.2

/-- Witness: the boundary record heads the page; the pass ends at once,
the record behind it and the following (transport-failing) page are never
touched, and the pending obligation is left unsettled. -/
theorem stop_boundary_halts_witness :
    runPassFull "A" c4Store
        (PageResult.ok ([] ++ c4b :: [c4t2]) (some "/n")
          :: [PageResult.transportError])
      = ((⟨[(1, 100)], c4Store⟩ : PassState).store, [], PassOutcome.ok)
    ∧ ∀ p ∈ (⟨[(1, 100)], c4Store⟩ : PassState).pending,
        isPayOf (⟨[(1, 100)], c4Store⟩ : PassState).store p.1 = some false :=
  stop_boundary_halts "A" c4Store "tstop" [] [c4t2] c4b (some "/n")
    [PageResult.transportError] (1, 100) [] ⟨[(1, 100)], c4Store⟩ []
    (by with_unfolding_all decide)
    (by with_unfolding_all rfl)
    (by with_unfolding_all rfl)
    rfl
    (by intro r hr; simp at hr)
    (by with_unfolding_all rfl)

end RustTron
